import Mathlib

/-!
Verification of the doodle-digger extraction program: a shallow embedding of
the navigation and image-pipeline code of `src/doodle-digger.ts` (and of its
untyped runtime variant) together with proofs about the specified properties.

Strings are modelled as Lean strings / character lists; the JS regular
expressions used by the source are modelled character by character.
-/

/-- ASCII whitespace as matched by the JS regex class `\s` and by
`String.prototype.trim` (space, tab, LF, VT, FF, CR). -/
def jsSpace (c : Char) : Bool :=
  c.toNat = 32 || c.toNat = 9 || c.toNat = 10 || c.toNat = 11 || c.toNat = 12 || c.toNat = 13

/-- Characters kept by `replace(/[^a-z0-9\s-]/g, "")`: the class `[a-z0-9\s-]`
(codes 97-122 for `a`-`z`, 48-57 for `0`-`9`, whitespace, 45 for `-`). -/
def keepChar (c : Char) : Bool :=
  (97 ≤ c.toNat && c.toNat ≤ 122) || (48 ≤ c.toNat && c.toNat ≤ 57) || jsSpace c || c.toNat = 45

/-- `String.prototype.trim` on a character list. -/
def trimChars (cs : List Char) : List Char :=
  ((cs.dropWhile jsSpace).reverse.dropWhile jsSpace).reverse

/-- `replace(/\s+/g, "_")`: every maximal run of whitespace becomes one `_`. -/
def collapseWs : List Char → List Char
  | [] => []
  | c :: rest =>
    if jsSpace c then
      match rest with
      | [] => ['_']
      | c2 :: _ => if jsSpace c2 then collapseWs rest else '_' :: collapseWs rest
    else c :: collapseWs rest

theorem collapseWs_singleton (c : Char) :
    collapseWs [c] = if jsSpace c then ['_'] else [c] := rfl

theorem collapseWs_cons_cons (c1 c2 : Char) (rest : List Char) :
    collapseWs (c1 :: c2 :: rest) =
      if jsSpace c1 then
        (if jsSpace c2 then collapseWs (c2 :: rest) else '_' :: collapseWs (c2 :: rest))
      else c1 :: collapseWs (c2 :: rest) := rfl

/-- `cleanTextForPath` (doodle-digger.ts lines 11-19): returns `"unknown"` for
empty / whitespace-only input, otherwise lower-cases, strips everything but
`[a-z0-9\s-]`, collapses whitespace runs to `_`, truncates to `maxLength`. -/
def cleanTextForPath (text : String) (maxLength : Nat) : String :=
  if trimChars text.data = [] then "unknown"
  else ⟨(collapseWs ((text.data.map Char.toLower).filter keepChar)).take maxLength⟩

/-- `extractTextWithFallback` (lines 22-29): the element text is `none` when
`textContent()` returned null; a null or whitespace-only text yields the
caller-supplied fallback, otherwise `cleanTextForPath` is applied. -/
def extractTextWithFallback (text : Option String) (fallbackName : String)
    (maxLength : Nat) : String :=
  match text with
  | none => fallbackName
  | some t => if trimChars t.data = [] then fallbackName else cleanTextForPath t maxLength

/-- The character class `[a-z0-9_-]` of the spec's output regex. -/
def allowedChar (c : Char) : Bool :=
  (97 ≤ c.toNat && c.toNat ≤ 122) || (48 ≤ c.toNat && c.toNat ≤ 57) ||
    c.toNat = 95 || c.toNat = 45

theorem allowedChar_not_space {c : Char} (h : allowedChar c = true) : jsSpace c = false := by
  simp only [allowedChar, Bool.or_eq_true, decide_eq_true_eq, Bool.and_eq_true] at h
  simp only [jsSpace, Bool.or_eq_false_iff, decide_eq_false_iff_not]
  omega

theorem mem_collapseWs {c : Char} :
    ∀ {cs : List Char}, c ∈ collapseWs cs → c = '_' ∨ (c ∈ cs ∧ jsSpace c = false)
  | [] => by intro h; simp [collapseWs] at h
  | [c1] => by
    intro h
    rw [collapseWs_singleton] at h
    by_cases h1 : jsSpace c1
    · rw [if_pos h1] at h
      simp only [List.mem_singleton] at h
      exact Or.inl h
    · rw [if_neg h1] at h
      simp only [List.mem_singleton] at h
      subst h
      exact Or.inr ⟨by simp, by simpa using h1⟩
  | c1 :: c2 :: rest => by
    intro h
    rw [collapseWs_cons_cons] at h
    by_cases h1 : jsSpace c1
    · rw [if_pos h1] at h
      by_cases h2 : jsSpace c2
      · rw [if_pos h2] at h
        rcases mem_collapseWs h with h3 | h3
        · exact Or.inl h3
        · exact Or.inr ⟨List.mem_cons_of_mem _ h3.1, h3.2⟩
      · rw [if_neg h2] at h
        rcases List.mem_cons.mp h with h3 | h3
        · exact Or.inl h3
        · rcases mem_collapseWs h3 with h4 | h4
          · exact Or.inl h4
          · exact Or.inr ⟨List.mem_cons_of_mem _ h4.1, h4.2⟩
    · rw [if_neg h1] at h
      rcases List.mem_cons.mp h with h3 | h3
      · subst h3
        exact Or.inr ⟨List.mem_cons_self _ _, by simpa using h1⟩
      · rcases mem_collapseWs h3 with h4 | h4
        · exact Or.inl h4
        · exact Or.inr ⟨List.mem_cons_of_mem _ h4.1, h4.2⟩

theorem collapseWs_eq_self :
    ∀ {cs : List Char}, (∀ c ∈ cs, jsSpace c = false) → collapseWs cs = cs
  | [] => fun _ => rfl
  | [c1] => fun h => by
    have h1 : jsSpace c1 = false := h c1 (List.mem_cons_self _ _)
    rw [collapseWs_singleton, if_neg (by simp [h1])]
  | c1 :: c2 :: rest => fun h => by
    have h1 : jsSpace c1 = false := h c1 (List.mem_cons_self _ _)
    rw [collapseWs_cons_cons, if_neg (by simp [h1]),
      collapseWs_eq_self (fun c hc => h c (List.mem_cons_of_mem _ hc))]

theorem dropWhile_eq_self_of_none {p : Char → Bool} :
    ∀ {cs : List Char}, (∀ c ∈ cs, p c = false) → cs.dropWhile p = cs := by
  intro cs
  cases cs with
  | nil => intro _; rfl
  | cons c rest =>
    intro h
    have := h c (List.mem_cons_self _ _)
    simp [List.dropWhile_cons, this]

theorem trimChars_eq_self {cs : List Char}
    (h : ∀ c ∈ cs, jsSpace c = false) : trimChars cs = cs := by
  unfold trimChars
  rw [dropWhile_eq_self_of_none h,
    dropWhile_eq_self_of_none (fun c hc => h c (List.mem_reverse.mp hc)),
    List.reverse_reverse]

theorem toLower_eq_self_of_allowed {c : Char} (h : allowedChar c = true) :
    Char.toLower c = c := by
  simp only [allowedChar, Bool.or_eq_true, decide_eq_true_eq, Bool.and_eq_true] at h
  unfold Char.toLower
  have hcond : ¬ (c.toNat ≥ 65 ∧ c.toNat ≤ 90) := by omega
  simp [hcond]

theorem chars_of_cleanTextForPath {text : String} {maxLength : Nat} :
    ∀ c ∈ (cleanTextForPath text maxLength).data, allowedChar c = true := by
  intro c hc
  unfold cleanTextForPath at hc
  split at hc
  · -- fallback branch: the characters of "unknown"
    have h7 : ∀ x ∈ "unknown".data, allowedChar x = true := by decide
    exact h7 c hc
  · have hc' : c ∈ collapseWs ((text.data.map Char.toLower).filter keepChar) :=
      List.mem_of_mem_take hc
    rcases mem_collapseWs hc' with h | ⟨hmem, hns⟩
    · subst h; decide
    · have hkeep : keepChar c = true := List.of_mem_filter hmem
      simp only [keepChar, Bool.or_eq_true, decide_eq_true_eq, Bool.and_eq_true] at hkeep
      simp only [allowedChar, Bool.or_eq_true, decide_eq_true_eq, Bool.and_eq_true]
      simp only [jsSpace, Bool.or_eq_false_iff, decide_eq_false_iff_not] at hns
      simp only [jsSpace, Bool.or_eq_true, decide_eq_true_eq] at hkeep
      omega

theorem char_toNat_inj {a b : Char} (h : a.toNat = b.toNat) : a = b :=
  Char.ext (UInt32.toNat.inj h)

theorem string_mk_data (s : String) : String.mk s.data = s := rfl

/-- A string all of whose characters are in `[a-z0-9-]` (allowed, and not the
underscore), is non-empty and no longer than `maxLength`, is a fixed point of
`cleanTextForPath`. -/
theorem cleanTextForPath_fixed {s : String} {maxLength : Nat}
    (hne : s.data ≠ [])
    (hall : ∀ c ∈ s.data, allowedChar c = true)
    (hund : ∀ c ∈ s.data, c ≠ '_')
    (hlen : s.data.length ≤ maxLength) :
    cleanTextForPath s maxLength = s := by
  have hnospace : ∀ c ∈ s.data, jsSpace c = false :=
    fun c hc => allowedChar_not_space (hall c hc)
  have htrim : trimChars s.data = s.data := trimChars_eq_self hnospace
  unfold cleanTextForPath
  rw [if_neg (by rw [htrim]; exact hne)]
  have hmap : s.data.map Char.toLower = s.data := by
    conv_rhs => rw [← List.map_id s.data]
    exact List.map_congr_left (fun a ha => toLower_eq_self_of_allowed (hall a ha))
  have hfil : s.data.filter keepChar = s.data := by
    rw [List.filter_eq_self]
    intro c hc
    have h1 := hall c hc
    have h2 : c.toNat ≠ 95 := fun hn => hund c hc (char_toNat_inj hn)
    simp only [allowedChar, Bool.or_eq_true, decide_eq_true_eq, Bool.and_eq_true] at h1
    simp only [keepChar, jsSpace, Bool.or_eq_true, decide_eq_true_eq, Bool.and_eq_true]
    omega
  rw [hmap, hfil, collapseWs_eq_self hnospace, List.take_of_length_le hlen,
    string_mk_data]

/-- C3: the claim that `cleanTextForPath` is idempotent fails: whitespace is
collapsed to `_`, but `_` is not in the kept class `[a-z0-9\s-]`, so a second
application deletes it: `clean "a b" = "a_b"` while `clean "a_b" = "ab"`. -/
theorem cleanTextForPath_not_idempotent :
    cleanTextForPath (cleanTextForPath "a b" 30) 30 ≠ cleanTextForPath "a b" 30 := by
  decide

/-- C3 (amended): `cleanTextForPath` is idempotent on every input whose first
result is non-empty, underscore-free and no longer than `maxLength` (the three
failure sources being the collapsed-whitespace underscores, the untruncated
`"unknown"` fallback, and inputs whose sanitised form is empty). -/
theorem cleanTextForPath_idempotent_of_benign (text : String) (maxLength : Nat)
    (hne : cleanTextForPath text maxLength ≠ "")
    (hund : ∀ c ∈ (cleanTextForPath text maxLength).data, c ≠ '_')
    (hlen : (cleanTextForPath text maxLength).data.length ≤ maxLength) :
    cleanTextForPath (cleanTextForPath text maxLength) maxLength
      = cleanTextForPath text maxLength := by
  apply cleanTextForPath_fixed
  · intro h0
    apply hne
    rw [← string_mk_data (cleanTextForPath text maxLength), h0]
  · exact fun c hc => chars_of_cleanTextForPath c hc
  · exact hund
  · exact hlen

theorem cleanTextForPath_idempotent_witness :
    cleanTextForPath (cleanTextForPath "abc" 30) 30 = cleanTextForPath "abc" 30 :=
  cleanTextForPath_idempotent_of_benign "abc" 30 (by decide) (by decide) (by decide)

/-- C4 (amended): a null or whitespace-only text yields exactly the
caller-supplied fallback; otherwise the result of the sanitizer consists only
of characters in `[a-z0-9_-]` and has length at most `maxLength` — but it can
be the empty string (so path segments are not always non-empty), and the
fallback itself is neither truncated nor re-sanitised. -/
theorem extractTextWithFallback_shape (t : Option String) (fb : String) (m : Nat) :
    (extractTextWithFallback none fb m = fb) ∧
    (∀ s, t = some s → trimChars s.data = [] →
      extractTextWithFallback t fb m = fb) ∧
    (∀ s, t = some s → trimChars s.data ≠ [] →
      (∀ c ∈ (extractTextWithFallback t fb m).data, allowedChar c = true) ∧
      (extractTextWithFallback t fb m).data.length ≤ m) := by
  refine ⟨rfl, ?_, ?_⟩
  · intro s hs htrim
    subst hs
    simp [extractTextWithFallback, htrim]
  · intro s hs htrim
    subst hs
    have hres : extractTextWithFallback (some s) fb m = cleanTextForPath s m := by
      simp [extractTextWithFallback, htrim]
    constructor
    · rw [hres]
      exact fun c hc => chars_of_cleanTextForPath c hc
    · rw [hres]
      unfold cleanTextForPath
      rw [if_neg htrim]
      exact List.length_take_le _ _

/-- C4 (counterexample): the input `"!!!"` is neither empty nor
whitespace-only, so no fallback is used, yet every character is stripped and
the resulting path segment is the empty string; moreover with `maxLength = 3`
a whitespace-only input returns the 20-character fallback
`"unknown_collection_1"`, which violates the `{0,maxLen}` length bound of the
claimed regex. -/
theorem extractTextWithFallback_cex :
    extractTextWithFallback (some "!!!") "unknown_picture_1" 30 = "" ∧
    extractTextWithFallback (some " ") "unknown_collection_1" 3
      = "unknown_collection_1" ∧
    3 < (extractTextWithFallback (some " ") "unknown_collection_1" 3).data.length := by
  refine ⟨by decide, by decide, by decide⟩

theorem extractTextWithFallback_shape_witness :
    (∀ c ∈ (extractTextWithFallback (some "My Dog!") "fb" 30).data,
      allowedChar c = true) ∧
    (extractTextWithFallback (some "My Dog!") "fb" 30).data.length ≤ 30 :=
  (extractTextWithFallback_shape (some "My Dog!") "fb" 30).2.2 "My Dog!" rfl (by decide)

/-- True when the list begins with a match of the regex `=s\d+`. -/
def startsSizeToken (cs : List Char) : Bool :=
  match cs with
  | '=' :: 's' :: c :: _ => c.isDigit
  | _ => false

/-- True when the list begins with the substring `=s`. -/
def startsEqS (cs : List Char) : Bool :=
  match cs with
  | '=' :: 's' :: _ => true
  | _ => false

/-- `src.includes("=s")`. -/
def hasEqS : List Char → Bool
  | [] => false
  | c :: rest => startsEqS (c :: rest) || hasEqS rest

/-- True when the string contains a match of `=s\d+` somewhere. -/
def hasSizeToken : List Char → Bool
  | [] => false
  | c :: rest => startsSizeToken (c :: rest) || hasSizeToken rest

/-- One pass of `replace(/=s\d+/g, "=s4096")`: leftmost-first, maximal-munch
digit runs, no rescanning of the replacement text. The `fuel` argument only
bounds the recursion and is always at least the list length at every call. -/
def replaceSizeAux : Nat → List Char → List Char
  | 0, cs => cs
  | _ + 1, [] => []
  | fuel + 1, c :: rest =>
    if startsSizeToken (c :: rest) then
      '=' :: 's' :: '4' :: '0' :: '9' :: '6' ::
        replaceSizeAux fuel ((rest.drop 1).dropWhile Char.isDigit)
    else c :: replaceSizeAux fuel rest

/-- `src.replace(/=s\d+/g, "=s4096")`. -/
def replaceSizeAll (cs : List Char) : List Char := replaceSizeAux cs.length cs

/-- The size upgrade of `downloadPreset` (lines 244-246):
`if (src.includes("=s")) src = src.replace(/=s\d+/g, "=s4096")`. -/
def upgradeSrc (src : String) : String :=
  if hasEqS src.data then ⟨replaceSizeAll src.data⟩ else src

theorem replaceSizeAux_eq_self_of_no_token :
    ∀ (fuel : Nat) (cs : List Char), hasSizeToken cs = false → replaceSizeAux fuel cs = cs := by
  intro fuel
  induction fuel with
  | zero => intro cs _; rfl
  | succ n ih =>
    intro cs h
    cases cs with
    | nil => rfl
    | cons c rest =>
      simp only [hasSizeToken, Bool.or_eq_false_iff] at h
      simp only [replaceSizeAux, h.1, Bool.false_eq_true, if_false]
      rw [ih rest h.2]

theorem startsEqS_of_startsSizeToken {cs : List Char}
    (h : startsSizeToken cs = true) : startsEqS cs = true := by
  unfold startsSizeToken at h
  unfold startsEqS
  cases cs with
  | nil => simp at h
  | cons a rest =>
    cases rest with
    | nil => simp at h
    | cons b rest2 =>
      cases rest2 with
      | nil =>
        split at h
        · rename_i heq; cases heq
        · simp at h
      | cons d rest3 =>
        split at h
        · rename_i heq
          injection heq with h1 h2
          injection h2 with h3 h4
          subst h1; subst h3
          rfl
        · simp at h

theorem hasSizeToken_false_of_hasEqS_false :
    ∀ {cs : List Char}, hasEqS cs = false → hasSizeToken cs = false := by
  intro cs
  induction cs with
  | nil => intro _; rfl
  | cons c rest ih =>
    intro h
    simp only [hasEqS, Bool.or_eq_false_iff] at h
    simp only [hasSizeToken, Bool.or_eq_false_iff]
    refine ⟨?_, ih h.2⟩
    cases hst : startsSizeToken (c :: rest) with
    | false => rfl
    | true =>
      have := startsEqS_of_startsSizeToken hst
      rw [h.1] at this
      exact absurd this Bool.false_ne_true

/-- The `includes("=s")` guard in the source is redundant: the code-side
`upgradeSrc` equals the unconditional global replacement. -/
theorem upgradeSrc_eq_replaceSizeAll (src : String) :
    upgradeSrc src = ⟨replaceSizeAll src.data⟩ := by
  unfold upgradeSrc
  split
  · rfl
  · rename_i h
    rw [show replaceSizeAll src.data = src.data from
      replaceSizeAux_eq_self_of_no_token _ _
        (hasSizeToken_false_of_hasEqS_false (Bool.eq_false_iff.mpr h)),
      string_mk_data]

/-- A URL without any `=s<digits>` token is left unchanged. -/
theorem upgradeSrc_eq_self_of_no_token {src : String}
    (h : hasSizeToken src.data = false) : upgradeSrc src = src := by
  rw [upgradeSrc_eq_replaceSizeAll,
    show replaceSizeAll src.data = src.data from replaceSizeAux_eq_self_of_no_token _ _ h,
    string_mk_data]

/-- True when the regex `filter:\s*([^;]+)` matches at the start of the list:
the literal `filter:` followed by at least one character other than `;`
(whitespace counts, since `\s* ([^;]+)` backtracks into the whitespace). -/
def startsFilterDecl (cs : List Char) : Bool :=
  "filter:".data.isPrefixOf cs &&
    (match cs.drop 7 with
     | [] => false
     | c :: _ => !(c == ';'))

/-- Leftmost match of `filter:\s*([^;]+)`: the run of non-`;` characters
following the first viable `filter:` occurrence (the capture group up to
leading whitespace, which the subsequent `.trim()` removes anyway). -/
def filterGroup : List Char → Option (List Char)
  | [] => none
  | c :: rest =>
    if startsFilterDecl (c :: rest) then
      some (((c :: rest).drop 7).takeWhile (fun d => !(d == ';')))
    else filterGroup rest

/-- `style?.match(/filter:\s*([^;]+)/)?.[1]?.trim()` (line 241). -/
def extractFilterInfo (style : Option String) : Option (List Char) :=
  match style with
  | none => none
  | some s => (filterGroup s.data).map trimChars

/-- JS truthiness of `filterInfo`: undefined and the empty string are falsy. -/
def filterTruthy : Option (List Char) → Bool
  | none => false
  | some cs => !cs.isEmpty

/-- What the per-layer body of `downloadPreset` (lines 235-253) does with one
rendered layer: layers without a truthy `src` are skipped; otherwise the
size-upgraded URL goes through `applyCSSFilterToImage` when a filter is
declared in the style, and through `downloadImageToBuffer` when not. -/
inductive LayerAction where
  | skipped : LayerAction
  | filterRender : String → String → LayerAction
  | rawDownload : String → LayerAction
deriving DecidableEq

def processLayer (src : Option String) (style : Option String) : LayerAction :=
  match src with
  | none => LayerAction.skipped
  | some s =>
    if s = "" then LayerAction.skipped
    else
      match extractFilterInfo style with
      | some f =>
        if f.isEmpty then LayerAction.rawDownload (upgradeSrc s)
        else LayerAction.filterRender (upgradeSrc s) ⟨f⟩
      | none => LayerAction.rawDownload (upgradeSrc s)

/-- C5: for every rendered layer with a non-empty `src`: when a filter
expression is declared in the style the layer goes through the
filter-rendering path (never a raw download); when none is declared the raw
resource is downloaded with the size-upgraded URL, where the upgrade equals
the unconditional global replacement of every `=s<digits>` token by `=s4096`
and leaves URLs without such a token unchanged. -/
theorem downloadPreset_layer_dispatch (src : String) (style : Option String)
    (hsrc : src ≠ "") :
    (filterTruthy (extractFilterInfo style) = true →
      ∃ f, extractFilterInfo style = some f ∧
        processLayer (some src) style = LayerAction.filterRender (upgradeSrc src) ⟨f⟩) ∧
    (filterTruthy (extractFilterInfo style) = false →
      processLayer (some src) style = LayerAction.rawDownload (upgradeSrc src)) ∧
    upgradeSrc src = ⟨replaceSizeAll src.data⟩ ∧
    (hasSizeToken src.data = false → upgradeSrc src = src) := by
  refine ⟨?_, ?_, upgradeSrc_eq_replaceSizeAll src,
    fun h => upgradeSrc_eq_self_of_no_token h⟩
  · intro ht
    cases hfi : extractFilterInfo style with
    | none =>
      rw [hfi] at ht
      exact absurd ht (by simp [filterTruthy])
    | some f =>
      rw [hfi] at ht
      have hne : f.isEmpty = false := by simpa [filterTruthy] using ht
      exact ⟨f, rfl, by simp [processLayer, hsrc, hfi, hne]⟩
  · intro ht
    cases hfi : extractFilterInfo style with
    | none => simp [processLayer, hsrc, hfi]
    | some f =>
      rw [hfi] at ht
      have hemp : f.isEmpty = true := by simpa [filterTruthy] using ht
      simp [processLayer, hsrc, hfi, hemp]

theorem downloadPreset_layer_dispatch_witness :
    processLayer (some "a=s512b") none = LayerAction.rawDownload (upgradeSrc "a=s512b") ∧
    upgradeSrc "a=s512b" = ⟨replaceSizeAll "a=s512b".data⟩ := by
  have h := downloadPreset_layer_dispatch "a=s512b" none (by decide)
  exact ⟨h.2.1 (by decide), h.2.2.1⟩

/-- One rendered `img.x1Lcpf` element, as read by `getAttribute`. -/
structure RenderedLayer where
  src : Option String
  style : Option String

/-- The indexed-loop pattern of the source
(`for (let i = 0; i < xs.count(); i++) use(xs.nth(i))`): the count is taken
once, the body runs on the element at each index in order, and its emitted
items are concatenated. -/
def forCount {α β : Type} (xs : List α) (body : Nat → α → List β) : List β :=
  (List.range xs.length).flatMap fun i =>
    match xs.get? i with
    | none => []
    | some x => body i x

theorem forCount_nil {α β : Type} (body : Nat → α → List β) :
    forCount [] body = [] := rfl

theorem forCount_cons {α β : Type} (x : α) (rest : List α) (body : Nat → α → List β) :
    forCount (x :: rest) body = body 0 x ++ forCount rest (fun i a => body (i + 1) a) := by
  unfold forCount
  rw [List.length_cons, List.range_succ_eq_map, List.flatMap_cons, List.flatMap_map]
  rfl

theorem forCount_const {α β : Type} (xs : List α) (g : α → List β) :
    forCount xs (fun _ x => g x) = xs.flatMap g := by
  induction xs with
  | nil => rfl
  | cons x rest ih => rw [forCount_cons, ih, List.flatMap_cons]

/-- The buffer-collecting loop of `downloadPreset` (lines 234-254): iterate over
the image count; a layer contributes its processed buffer only under
`if (src)`. -/
def downloadPresetActions (layers : List RenderedLayer) : List LayerAction :=
  forCount layers fun _ l =>
    match processLayer l.src l.style with
    | LayerAction.skipped => []
    | a => [a]

/-- JS truthiness of the `src` attribute value. -/
def srcTruthy (l : RenderedLayer) : Bool :=
  match l.src with
  | none => false
  | some s => !(s == "")

theorem processLayer_skipped_of_not_truthy {l : RenderedLayer}
    (h : srcTruthy l = false) : processLayer l.src l.style = LayerAction.skipped := by
  cases l with
  | mk src style =>
    cases src with
    | none => rfl
    | some s =>
      simp only [srcTruthy, Bool.not_eq_false'] at h
      have : s = "" := by simpa using h
      simp [processLayer, this]

theorem processLayer_ne_skipped_of_truthy {l : RenderedLayer}
    (h : srcTruthy l = true) : processLayer l.src l.style ≠ LayerAction.skipped := by
  cases l with
  | mk src style =>
    cases src with
    | none => simp [srcTruthy] at h
    | some s =>
      simp only [srcTruthy, Bool.not_eq_true'] at h
      have hs : ¬ s = "" := by simpa using h
      cases hfi : extractFilterInfo style with
      | none => simp [processLayer, hs, hfi]
      | some f =>
        by_cases hemp : f.isEmpty
        · simp [processLayer, hs, hfi, hemp]
        · simp [processLayer, hs, hfi, hemp]

/-- C10 (amended): in the per-preset acquisition loop, a layer is skipped
exactly when its `src` attribute is falsy — absent (null) or the empty
string — and every other layer contributes exactly one buffer, in order; the
sequence can be empty when no layer has a truthy `src`. -/
theorem downloadPresetActions_eq (layers : List RenderedLayer) :
    downloadPresetActions layers
        = (layers.filter srcTruthy).map (fun l => processLayer l.src l.style) ∧
    (downloadPresetActions layers).length = (layers.filter srcTruthy).length ∧
    (downloadPresetActions layers).length ≤ layers.length ∧
    ((∀ l ∈ layers, srcTruthy l = false) → downloadPresetActions layers = []) := by
  have hmain : downloadPresetActions layers
      = (layers.filter srcTruthy).map (fun l => processLayer l.src l.style) := by
    unfold downloadPresetActions
    induction layers with
    | nil => rfl
    | cons l rest ih =>
      rw [forCount_cons, List.filter_cons]
      cases ht : srcTruthy l with
      | false =>
        rw [processLayer_skipped_of_not_truthy ht]
        simpa using ih
      | true =>
        have hne := processLayer_ne_skipped_of_truthy ht
        have hbody : (match processLayer l.src l.style with
            | LayerAction.skipped => ([] : List LayerAction)
            | a => [a]) = [processLayer l.src l.style] := by
          cases hpl : processLayer l.src l.style with
          | skipped => exact absurd hpl hne
          | filterRender u f => rfl
          | rawDownload u => rfl
        rw [hbody]
        simpa using ih
  refine ⟨hmain, ?_, ?_, ?_⟩
  · rw [hmain, List.length_map]
  · rw [hmain, List.length_map]
    exact List.length_filter_le _ _
  · intro hall
    rw [hmain, List.filter_eq_nil_iff.mpr (fun l hl => by simp [hall l hl]), List.map_nil]

/-- C10 (counterexample): a rendered layer whose `src` attribute is present but
equal to the empty string *has* a src, yet the loop's JS-truthiness test
`if (src)` skips it, so no buffer is produced for it. -/
theorem downloadPresetActions_cex :
    downloadPresetActions [⟨some "", none⟩] = [] ∧
    ([(⟨some "", none⟩ : RenderedLayer)] : List RenderedLayer).length = 1 := by
  exact ⟨rfl, rfl⟩

theorem downloadPresetActions_witness :
    downloadPresetActions [⟨none, none⟩] = [] :=
  (downloadPresetActions_eq [⟨none, none⟩]).2.2.2 (by decide)

/-- One RGBA pixel, channels as exact rationals (alpha in [0,1] in intended
use; the blending algebra needs no such bound). -/
structure Pixel where
  r : ℚ
  g : ℚ
  b : ℚ
  alpha : ℚ
deriving DecidableEq

/-- A decoded raster: row-major pixels. All layers of one preset are
pre-registered to identical dimensions by the source site, so a flat pixel
list suffices for the blending model. -/
abbrev ImageBuffer := List Pixel

/-- Standard source-over alpha compositing, per channel:
`out = src·srcAlpha + dst·(1−srcAlpha)`. -/
def blendOver (src dst : Pixel) : Pixel :=
  ⟨src.r * src.alpha + dst.r * (1 - src.alpha),
   src.g * src.alpha + dst.g * (1 - src.alpha),
   src.b * src.alpha + dst.b * (1 - src.alpha),
   src.alpha + dst.alpha * (1 - src.alpha)⟩

/-- Draw `src` over `dst`, top-left aligned (no offset, equal dimensions). -/
def overlayOnto (dst src : ImageBuffer) : ImageBuffer :=
  List.zipWith (fun d s => blendOver s d) dst src

/-- One element of the `overlays` array handed to `sharp(...).composite`
(lines 201-206): `{ input: buffer, top: 0, left: 0, blend: "over" }`. -/
structure OverlaySpec where
  input : ImageBuffer
  top : Nat
  left : Nat
  blend : String

/-- `sharp(base).composite(overlays)`: each overlay is drawn over the
accumulated image in array order. -/
def sharpComposite (base : ImageBuffer) (overlays : List OverlaySpec) : ImageBuffer :=
  overlays.foldl (fun acc ov => overlayOnto acc ov.input) base

/-- What ends up in the written file: either the first buffer verbatim
(single-layer case, no re-encoding) or a JPEG encode at the given quality of
the composited raster. -/
inductive FileContent where
  | verbatim : ImageBuffer → FileContent
  | jpeg : Nat → ImageBuffer → FileContent
deriving DecidableEq

/-- `createCompositeFromBuffers` (lines 181-209). `outputFolder` is modelled by
its basename (`path.basename(outputFolder)` is the picture name). Returns the
written file as (name, content); `none` models the crash on an empty buffer
list (`sharp(undefined)`). -/
def createCompositeFromBuffers (outputFolder : String) (presetNumber : Nat)
    (imageBuffers : List ImageBuffer) : Option (String × FileContent) :=
  let finalName := outputFolder ++ "_" ++ toString presetNumber ++ ".jpg"
  match imageBuffers with
  | [] => none
  | [b] => some (finalName, FileContent.verbatim b)
  | b :: rest =>
    some (finalName, FileContent.jpeg 100
      (sharpComposite b (rest.map fun buf => ⟨buf, 0, 0, "over"⟩)))

/-- The spec's sequential description: composite each subsequent buffer over
the accumulated base, in order. -/
def specSequentialOver : ImageBuffer → List ImageBuffer → ImageBuffer
  | base, [] => base
  | base, l :: ls => specSequentialOver (overlayOnto base l) ls

theorem sharpComposite_eq_specSequentialOver :
    ∀ (rest : List ImageBuffer) (base : ImageBuffer),
      sharpComposite base (rest.map fun buf => ⟨buf, 0, 0, "over"⟩)
        = specSequentialOver base rest := by
  intro rest
  induction rest with
  | nil => intro base; rfl
  | cons l ls ih =>
    intro base
    rw [List.map_cons]
    show sharpComposite (overlayOnto base l) (ls.map fun buf => ⟨buf, 0, 0, "over"⟩)
      = specSequentialOver base (l :: ls)
    rw [ih (overlayOnto base l)]
    rfl

def redOpaque : ImageBuffer := [⟨1, 0, 0, 1⟩]

def greenHalf : ImageBuffer := [⟨0, 1, 0, 1/2⟩]

/-- C2: for every non-empty buffer sequence, exactly one file named
`<pictureName>_<presetNumber>.jpg` is produced; a single buffer is written
verbatim; several buffers yield the JPEG (quality 100) of the in-order
source-over composite onto `buffers[0]`; and the composite is order-sensitive
for layers with differing non-opaque regions. -/
theorem createCompositeFromBuffers_spec :
    (∀ (name : String) (k : Nat) (bufs : List ImageBuffer), bufs ≠ [] →
      ∃ content,
        createCompositeFromBuffers name k bufs
          = some (name ++ "_" ++ toString k ++ ".jpg", content) ∧
        (∀ b, bufs = [b] → content = FileContent.verbatim b) ∧
        (∀ b r, bufs = b :: r → r ≠ [] →
          content = FileContent.jpeg 100 (specSequentialOver b r))) ∧
    createCompositeFromBuffers "p" 1 [redOpaque, greenHalf]
      ≠ createCompositeFromBuffers "p" 1 [greenHalf, redOpaque] := by
  constructor
  · intro name k bufs hne
    match bufs with
    | [] => exact absurd rfl hne
    | [b] =>
      refine ⟨FileContent.verbatim b, rfl, ?_, ?_⟩
      · intro b' hb
        injection hb with h1 _
        rw [h1]
      · intro b' r hb hr
        injection hb with h1 h2
        exact absurd h2.symm hr
    | b :: b2 :: rest =>
      refine ⟨FileContent.jpeg 100 (specSequentialOver b (b2 :: rest)), ?_, ?_, ?_⟩
      · show some (_, FileContent.jpeg 100
          (sharpComposite b ((b2 :: rest).map fun buf => ⟨buf, 0, 0, "over"⟩))) = _
        rw [sharpComposite_eq_specSequentialOver]
      · intro b' hb
        injection hb with _ h2
        exact absurd h2 (by simp)
      · intro b' r hb _
        injection hb with h1 h2
        rw [h1, h2]
  · have h1 : createCompositeFromBuffers "p" 1 [redOpaque, greenHalf]
        = some ("p" ++ "_" ++ toString 1 ++ ".jpg",
            FileContent.jpeg 100 [⟨1/2, 1/2, 0, 1⟩]) := by
      show some ("p" ++ "_" ++ toString 1 ++ ".jpg", FileContent.jpeg 100
          (sharpComposite redOpaque ([greenHalf].map fun buf => ⟨buf, 0, 0, "over"⟩)))
        = some ("p" ++ "_" ++ toString 1 ++ ".jpg", FileContent.jpeg 100 [⟨1/2, 1/2, 0, 1⟩])
      rw [sharpComposite_eq_specSequentialOver]
      norm_num [specSequentialOver, overlayOnto, blendOver, redOpaque, greenHalf,
        List.zipWith]
    have h2 : createCompositeFromBuffers "p" 1 [greenHalf, redOpaque]
        = some ("p" ++ "_" ++ toString 1 ++ ".jpg",
            FileContent.jpeg 100 [⟨1, 0, 0, 1⟩]) := by
      show some ("p" ++ "_" ++ toString 1 ++ ".jpg", FileContent.jpeg 100
          (sharpComposite greenHalf ([redOpaque].map fun buf => ⟨buf, 0, 0, "over"⟩)))
        = some ("p" ++ "_" ++ toString 1 ++ ".jpg", FileContent.jpeg 100 [⟨1, 0, 0, 1⟩])
      rw [sharpComposite_eq_specSequentialOver]
      norm_num [specSequentialOver, overlayOnto, blendOver, redOpaque, greenHalf,
        List.zipWith]
    rw [h1, h2]
    intro h
    simp only [Option.some.injEq, Prod.mk.injEq, FileContent.jpeg.injEq,
      List.cons.injEq, Pixel.mk.injEq] at h
    norm_num at h

theorem createCompositeFromBuffers_witness :
    ∃ content,
      createCompositeFromBuffers "pic" 2 [redOpaque]
        = some ("pic" ++ "_" ++ toString 2 ++ ".jpg", content) ∧
      (∀ b, [redOpaque] = [b] → content = FileContent.verbatim b) ∧
      (∀ b r, [redOpaque] = b :: r → r ≠ [] →
        content = FileContent.jpeg 100 (specSequentialOver b r)) :=
  createCompositeFromBuffers_spec.1 "pic" 2 [redOpaque] (by decide)

/-- A preset radio entry under the "Presets" heading. -/
structure PresetM where
  name : String
deriving DecidableEq

/-- A picture (`div[role="listitem"]`) with its enumerated presets. -/
structure PictureM where
  name : String
  presets : List PresetM
deriving DecidableEq

/-- A picture class (`div.LWctvf`) with its enumerated pictures. -/
structure PClassM where
  name : String
  pictures : List PictureM
deriving DecidableEq

/-- A collection (`section.u4mwyd`) with its enumerated picture classes. -/
structure CollectionM where
  name : String
  classes : List PClassM
deriving DecidableEq

/-- The whole rendered menu: the enumerated collections. -/
abbrev MenuModel := List CollectionM

/-- The observable navigation events of the main loops:
`visit c k p r i` is the processing of preset `r` (1-based ordinal `i`) of
picture `p` in class `k` of collection `c` (preset select + `downloadPreset`);
`cancelBack` is `goBackToPresetSelection` (the Cancel control);
`backNth n` is a click on back button ordinal `n` (`backButtons.nth(n)`):
`backNth 2` is `goBackToPictureSelection`, `backNth 1` is
`goBackToPictureClassSelection`. -/
inductive NavEvent where
  | visit : String → String → String → String → Nat → NavEvent
  | cancelBack : NavEvent
  | backNth : Nat → NavEvent
deriving DecidableEq

/-- The preset loop (lines 459-484): per preset, select it, run
`downloadPreset` with ordinal `presetIndex + 1`, then always cancel back. -/
def presetLoop (c k p : String) (rs : List PresetM) : List NavEvent :=
  forCount rs fun rj r => [NavEvent.visit c k p r.name (rj + 1), NavEvent.cancelBack]

/-- The picture loop (lines 407-490): per picture, run all presets then always
`goBackToPictureSelection` (back ordinal 2). -/
def pictureLoop (c k : String) (ps : List PictureM) : List NavEvent :=
  forCount ps fun _ p => presetLoop c k p.name p.presets ++ [NavEvent.backNth 2]

/-- The class loop (lines 380-498): per class, run all pictures then always
`goBackToPictureClassSelection` (back ordinal 1). -/
def classLoop (c : String) (ks : List PClassM) : List NavEvent :=
  forCount ks fun _ k => pictureLoop c k.name k.pictures ++ [NavEvent.backNth 1]

/-- The collection loop (lines 355-503): no back action at all after a
collection's classes are exhausted. -/
def runTraversal (menu : MenuModel) : List NavEvent :=
  forCount menu fun _ c => classLoop c.name c.classes

/-- The spec-side preset leaf sequence, carrying the running 1-based ordinal. -/
def presetEvents (c k p : String) : Nat → List PresetM → List NavEvent
  | _, [] => []
  | i, r :: rs =>
    NavEvent.visit c k p r.name i :: NavEvent.cancelBack :: presetEvents c k p (i + 1) rs

/-- The spec-side expected trace: depth-first, each level in enumeration
order; one cancel per preset, one `backNth 2` per picture, one `backNth 1`
per class, and nothing between the last class of a collection and the next
collection. -/
def expectedTrace (menu : MenuModel) : List NavEvent :=
  menu.flatMap fun c =>
    c.classes.flatMap fun k =>
      (k.pictures.flatMap fun p =>
        presetEvents c.name k.name p.name 1 p.presets ++ [NavEvent.backNth 2])
      ++ [NavEvent.backNth 1]

theorem presetLoop_shift (c k p : String) :
    ∀ (rs : List PresetM) (n : Nat),
      forCount rs (fun rj r => [NavEvent.visit c k p r.name (rj + n + 1), NavEvent.cancelBack])
        = presetEvents c k p (n + 1) rs := by
  intro rs
  induction rs with
  | nil => intro n; rfl
  | cons r rest ih =>
    intro n
    rw [forCount_cons]
    have hfun : (fun (i : Nat) (a : PresetM) =>
        [NavEvent.visit c k p a.name (i + 1 + n + 1), NavEvent.cancelBack])
        = fun (i : Nat) (a : PresetM) =>
        [NavEvent.visit c k p a.name (i + (n + 1) + 1), NavEvent.cancelBack] := by
      funext i a
      have : i + 1 + n + 1 = i + (n + 1) + 1 := by omega
      rw [this]
    rw [hfun, ih (n + 1)]
    show NavEvent.visit c k p r.name (0 + n + 1) :: NavEvent.cancelBack ::
        presetEvents c k p (n + 1 + 1) rest
      = NavEvent.visit c k p r.name (n + 1) :: NavEvent.cancelBack ::
        presetEvents c k p (n + 1 + 1) rest
    rw [Nat.zero_add]

theorem presetLoop_eq (c k p : String) (rs : List PresetM) :
    presetLoop c k p rs = presetEvents c k p 1 rs :=
  presetLoop_shift c k p rs 0

theorem runTraversal_eq_expectedTrace (menu : MenuModel) :
    runTraversal menu = expectedTrace menu := by
  unfold runTraversal expectedTrace
  rw [forCount_const]
  have hclass : (fun (c : CollectionM) => classLoop c.name c.classes)
      = fun (c : CollectionM) =>
        c.classes.flatMap fun k =>
          (k.pictures.flatMap fun p =>
            presetEvents c.name k.name p.name 1 p.presets ++ [NavEvent.backNth 2])
          ++ [NavEvent.backNth 1] := by
    funext c
    unfold classLoop
    rw [forCount_const]
    have hpic : (fun (k : PClassM) => pictureLoop c.name k.name k.pictures ++ [NavEvent.backNth 1])
        = fun (k : PClassM) =>
          (k.pictures.flatMap fun p =>
            presetEvents c.name k.name p.name 1 p.presets ++ [NavEvent.backNth 2])
          ++ [NavEvent.backNth 1] := by
      funext k
      unfold pictureLoop
      rw [forCount_const]
      have hpre : (fun (p : PictureM) => presetLoop c.name k.name p.name p.presets
            ++ [NavEvent.backNth 2])
          = fun (p : PictureM) =>
            presetEvents c.name k.name p.name 1 p.presets ++ [NavEvent.backNth 2] := by
        funext p
        rw [presetLoop_eq]
      rw [hpre]
    rw [hpic]
  rw [hclass]

def totalPresets (menu : MenuModel) : Nat :=
  (menu.map fun c =>
    (c.classes.map fun k => (k.pictures.map fun p => p.presets.length).sum).sum).sum

def totalPictures (menu : MenuModel) : Nat :=
  (menu.map fun c => (c.classes.map fun k => k.pictures.length).sum).sum

def totalClasses (menu : MenuModel) : Nat :=
  (menu.map fun c => c.classes.length).sum

theorem count_flatMap {α β : Type} [BEq β] (a : β) (l : List α) (f : α → List β) :
    List.count a (l.flatMap f) = (l.map fun x => List.count a (f x)).sum := by
  induction l with
  | nil => rfl
  | cons x rest ih =>
    rw [List.flatMap_cons, List.count_append, ih, List.map_cons, List.sum_cons]

theorem count_cancel_presetEvents (c k p : String) :
    ∀ (rs : List PresetM) (n : Nat),
      List.count NavEvent.cancelBack (presetEvents c k p n rs) = rs.length := by
  intro rs
  induction rs with
  | nil => intro n; rfl
  | cons r rest ih =>
    intro n
    simp [presetEvents, List.count_cons, beq_iff_eq, ih (n + 1)]

theorem count_backNth_presetEvents (c k p : String) (m : Nat) :
    ∀ (rs : List PresetM) (n : Nat),
      List.count (NavEvent.backNth m) (presetEvents c k p n rs) = 0 := by
  intro rs
  induction rs with
  | nil => intro n; rfl
  | cons r rest ih =>
    intro n
    simp [presetEvents, List.count_cons, beq_iff_eq, ih (n + 1)]

/-- Which events are leaf visits. -/
def isVisit : NavEvent → Bool
  | NavEvent.visit _ _ _ _ _ => true
  | _ => false

/-- The depth-first leaf enumeration of one picture's presets with 1-based
ordinals. -/
def visitList (c k p : String) : Nat → List PresetM → List NavEvent
  | _, [] => []
  | i, r :: rs => NavEvent.visit c k p r.name i :: visitList c k p (i + 1) rs

/-- The depth-first leaf enumeration of the whole menu. -/
def dfsLeaves (menu : MenuModel) : List NavEvent :=
  menu.flatMap fun c =>
    c.classes.flatMap fun k =>
      k.pictures.flatMap fun p => visitList c.name k.name p.name 1 p.presets

theorem filter_isVisit_presetEvents (c k p : String) :
    ∀ (rs : List PresetM) (n : Nat),
      (presetEvents c k p n rs).filter isVisit = visitList c k p n rs := by
  intro rs
  induction rs with
  | nil => intro n; rfl
  | cons r rest ih =>
    intro n
    simp [presetEvents, visitList, List.filter_cons, isVisit, ih (n + 1)]

theorem visits_of_expectedTrace (menu : MenuModel) :
    (expectedTrace menu).filter isVisit = dfsLeaves menu := by
  unfold expectedTrace dfsLeaves
  rw [List.filter_flatMap]
  refine congrArg (List.flatMap menu) (funext fun c => ?_)
  rw [List.filter_flatMap]
  refine congrArg (List.flatMap c.classes) (funext fun k => ?_)
  rw [List.filter_append, List.filter_flatMap]
  have hb1 : List.filter isVisit [NavEvent.backNth 1] = [] := rfl
  rw [hb1, List.append_nil]
  refine congrArg (List.flatMap k.pictures) (funext fun p => ?_)
  rw [List.filter_append]
  have hb2 : List.filter isVisit [NavEvent.backNth 2] = [] := rfl
  rw [hb2, List.append_nil, filter_isVisit_presetEvents]

theorem count_cancel_expectedTrace (menu : MenuModel) :
    List.count NavEvent.cancelBack (expectedTrace menu) = totalPresets menu := by
  unfold expectedTrace totalPresets
  rw [count_flatMap]
  refine congrArg List.sum (List.map_congr_left fun c _ => ?_)
  rw [count_flatMap]
  refine congrArg List.sum (List.map_congr_left fun k _ => ?_)
  rw [List.count_append, count_flatMap]
  have hb1 : List.count NavEvent.cancelBack [NavEvent.backNth 1] = 0 := rfl
  rw [hb1, Nat.add_zero]
  refine congrArg List.sum (List.map_congr_left fun p _ => ?_)
  rw [List.count_append]
  have hb2 : List.count NavEvent.cancelBack [NavEvent.backNth 2] = 0 := rfl
  rw [hb2, Nat.add_zero, count_cancel_presetEvents]

theorem count_back2_expectedTrace (menu : MenuModel) :
    List.count (NavEvent.backNth 2) (expectedTrace menu) = totalPictures menu := by
  unfold expectedTrace totalPictures
  rw [count_flatMap]
  refine congrArg List.sum (List.map_congr_left fun c _ => ?_)
  rw [count_flatMap]
  refine congrArg List.sum (List.map_congr_left fun k _ => ?_)
  rw [List.count_append, count_flatMap]
  have hb1 : List.count (NavEvent.backNth 2) [NavEvent.backNth 1] = 0 := rfl
  rw [hb1, Nat.add_zero]
  have hper : ∀ p ∈ k.pictures,
      List.count (NavEvent.backNth 2)
        (presetEvents c.name k.name p.name 1 p.presets ++ [NavEvent.backNth 2]) = 1 := by
    intro p _
    rw [List.count_append, count_backNth_presetEvents]
    rfl
  rw [List.map_congr_left hper]
  rw [show (k.pictures.map fun _ => 1).sum = k.pictures.length from by
    induction k.pictures with
    | nil => rfl
    | cons q qs ihq => simp [ihq, Nat.add_comm]]

theorem count_back1_expectedTrace (menu : MenuModel) :
    List.count (NavEvent.backNth 1) (expectedTrace menu) = totalClasses menu := by
  unfold expectedTrace totalClasses
  rw [count_flatMap]
  refine congrArg List.sum (List.map_congr_left fun c _ => ?_)
  have hper : ∀ k ∈ c.classes,
      List.count (NavEvent.backNth 1)
        ((k.pictures.flatMap fun p =>
          presetEvents c.name k.name p.name 1 p.presets ++ [NavEvent.backNth 2])
          ++ [NavEvent.backNth 1]) = 1 := by
    intro k _
    rw [List.count_append, count_flatMap]
    have hzero : ∀ p ∈ k.pictures,
        List.count (NavEvent.backNth 1)
          (presetEvents c.name k.name p.name 1 p.presets ++ [NavEvent.backNth 2]) = 0 := by
      intro p _
      rw [List.count_append, count_backNth_presetEvents]
      rfl
    rw [List.map_congr_left hzero]
    rw [show (k.pictures.map fun _ => 0).sum = 0 from by
      induction k.pictures with
      | nil => rfl
      | cons q qs ihq => simp [ihq]]
    rfl
  rw [count_flatMap, List.map_congr_left hper]
  induction c.classes with
  | nil => rfl
  | cons k ks ihk => simp [ihk, Nat.add_comm]

/-- The spec's mock menu: collections `[c1, c2]`, one class `k1` each, one
picture `p1` each, presets `[r1, r2]`. -/
def mockMenu : MenuModel :=
  [⟨"c1", [⟨"k1", [⟨"p1", [⟨"r1"⟩, ⟨"r2"⟩]⟩]⟩]⟩,
   ⟨"c2", [⟨"k1", [⟨"p1", [⟨"r1"⟩, ⟨"r2"⟩]⟩]⟩]⟩]

/-- C1: the main loops visit leaves in exact depth-first enumeration order;
the recorded trace is precisely: per preset a visit with its 1-based ordinal
followed by one cancel, per picture one back ordinal 2 after its presets, per
class one back ordinal 1 after its pictures, and no event at all between the
last class of a collection and the next collection. On the spec's mock menu
the trace is exactly the expected 12-event sequence. -/
theorem traversal_order_spec :
    (∀ menu : MenuModel,
      runTraversal menu = expectedTrace menu ∧
      (runTraversal menu).filter isVisit = dfsLeaves menu ∧
      List.count NavEvent.cancelBack (runTraversal menu) = totalPresets menu ∧
      List.count (NavEvent.backNth 2) (runTraversal menu) = totalPictures menu ∧
      List.count (NavEvent.backNth 1) (runTraversal menu) = totalClasses menu) ∧
    runTraversal mockMenu =
      [NavEvent.visit "c1" "k1" "p1" "r1" 1, NavEvent.cancelBack,
       NavEvent.visit "c1" "k1" "p1" "r2" 2, NavEvent.cancelBack,
       NavEvent.backNth 2, NavEvent.backNth 1,
       NavEvent.visit "c2" "k1" "p1" "r1" 1, NavEvent.cancelBack,
       NavEvent.visit "c2" "k1" "p1" "r2" 2, NavEvent.cancelBack,
       NavEvent.backNth 2, NavEvent.backNth 1] := by
  constructor
  · intro menu
    refine ⟨runTraversal_eq_expectedTrace menu, ?_, ?_, ?_, ?_⟩
    · rw [runTraversal_eq_expectedTrace]
      exact visits_of_expectedTrace menu
    · rw [runTraversal_eq_expectedTrace]
      exact count_cancel_expectedTrace menu
    · rw [runTraversal_eq_expectedTrace]
      exact count_back2_expectedTrace menu
    · rw [runTraversal_eq_expectedTrace]
      exact count_back1_expectedTrace menu
  · decide

/-- The outcome of one whole invocation of the main IIFE (lines 264-515): the
process exit code, the prefix of navigation events that actually ran, and the
final console error line, if any. -/
structure RunResult where
  exitCode : Nat
  executed : List NavEvent
  reported : Option String
deriving DecidableEq

/-- The fixed prefix of the catch handler's error line (line 510):
`console.error("❌ Error during extraction:", error.message)`. -/
def errorLinePrefix : String := "❌ Error during extraction: "

/-- The fixed message of the missing-authentication exit (lines 269-274). -/
def authMissingLine : String := "❌ No authentication found! Please run npm run setup first."

/-- The whole run, as a function of the rendered menu, of whether the
persisted context directory exists, and of an injected fault: `some (n, msg)`
makes the n-th traversal step (0-based) throw an error whose own message is
`msg`. The code has a single try/catch around the whole traversal and no
retry anywhere: the first throw aborts everything, the catch logs the error
message with the fixed prefix and exits 1; completion exits 0; a missing
persistent context exits 1 before any traversal. -/
def runModel (menu : MenuModel) (authExists : Bool)
    (failure : Option (Nat × String)) : RunResult :=
  if authExists then
    match failure with
    | none => ⟨0, runTraversal menu, none⟩
    | some (n, msg) =>
      if n < (runTraversal menu).length then
        ⟨1, (runTraversal menu).take n, some (errorLinePrefix ++ msg)⟩
      else ⟨0, runTraversal menu, none⟩
  else ⟨1, [], some authMissingLine⟩

/-- `needle` occurs as a contiguous substring of the list. -/
def occursIn (needle : List Char) : List Char → Bool
  | [] => needle.isEmpty
  | c :: rest => needle.isPrefixOf (c :: rest) || occursIn needle rest

/-- `hay.includes(needle)` on strings. -/
def containsStr (hay needle : String) : Bool :=
  occursIn needle.data hay.data

/-- C6 (amended): every error thrown at any traversal step aborts the whole
run with no retry — exactly the first `n` steps ran, nothing after the
failing step — and the process exits 1; but the reported error line is only
the fixed prefix plus the throw's own message: the traversal context
(collection/class names, depth) is not attached to it. -/
theorem error_aborts_run (menu : MenuModel) (n : Nat) (msg : String)
    (h : n < (runTraversal menu).length) :
    runModel menu true (some (n, msg))
      = ⟨1, (runTraversal menu).take n, some (errorLinePrefix ++ msg)⟩ ∧
    (runModel menu true (some (n, msg))).exitCode ≠ 0 ∧
    (runModel menu true (some (n, msg))).executed.length = n := by
  have hmain : runModel menu true (some (n, msg))
      = ⟨1, (runTraversal menu).take n, some (errorLinePrefix ++ msg)⟩ := by
    simp [runModel, h]
  refine ⟨hmain, ?_, ?_⟩
  · rw [hmain]
    simp
  · rw [hmain]
    simp [List.length_take, Nat.min_eq_left (Nat.le_of_lt h)]

theorem error_aborts_run_witness :
    runModel mockMenu true (some (3, "boom"))
      = ⟨1, (runTraversal mockMenu).take 3, some (errorLinePrefix ++ "boom")⟩ ∧
    (runModel mockMenu true (some (3, "boom"))).exitCode ≠ 0 ∧
    (runModel mockMenu true (some (3, "boom"))).executed.length = 3 :=
  error_aborts_run mockMenu 3 "boom" (by decide)

/-- C6 (counterexample): injecting a readiness-timeout failure two steps into
the mock menu (collection "c1", class "k1" already reached) exits 1, but the
reported error line carries neither the collection name nor the class name:
the catch handler prints only `error.message`; no `NavigationError` with the
current NavigationPath/depth exists in the code. -/
theorem error_report_lacks_context :
    (runModel mockMenu true (some (2, "Timeout 5000ms exceeded."))).exitCode = 1 ∧
    (runModel mockMenu true (some (2, "Timeout 5000ms exceeded."))).reported
      = some "❌ Error during extraction: Timeout 5000ms exceeded." ∧
    containsStr "❌ Error during extraction: Timeout 5000ms exceeded." "c1" = false ∧
    containsStr "❌ Error during extraction: Timeout 5000ms exceeded." "k1" = false := by
  refine ⟨by decide, by decide, by decide, by decide⟩

/-- C7 (amended): a missing persisted session exits with code 1 before any
traversal step runs; a completed traversal exits 0; any unrecovered error
exits 1. The session-missing code is not distinct from the unrecovered-error
code: both are 1. -/
theorem run_exit_discipline (menu : MenuModel) (failure : Option (Nat × String)) :
    runModel menu false failure = ⟨1, [], some authMissingLine⟩ ∧
    (runModel menu true none).exitCode = 0 ∧
    (runModel menu true none).executed = runTraversal menu ∧
    (∀ n msg, n < (runTraversal menu).length →
      (runModel menu true (some (n, msg))).exitCode = 1) := by
  refine ⟨rfl, rfl, rfl, ?_⟩
  intro n msg h
  simp [runModel, h]

theorem run_exit_discipline_witness :
    runModel mockMenu false none = ⟨1, [], some authMissingLine⟩ ∧
    (runModel mockMenu true none).exitCode = 0 ∧
    (runModel mockMenu true (some (0, "boom"))).exitCode = 1 := by
  have h := run_exit_discipline mockMenu none
  exact ⟨h.1, h.2.1, h.2.2.2 0 "boom" (by decide)⟩

/-- C7 (counterexample): the exit code for a missing session equals the exit
code for an unrecovered traversal error (both 1), so the session-missing exit
is not a distinct non-zero code. -/
theorem auth_exit_code_not_distinct :
    (runModel mockMenu false none).exitCode = 1 ∧
    (runModel mockMenu true (some (1, "Timeout"))).exitCode = 1 ∧
    (runModel mockMenu false none).exitCode
      = (runModel mockMenu true (some (1, "Timeout"))).exitCode := by
  refine ⟨by decide, by decide, by decide⟩

/-- The filesystem, as the association of existing paths to their bytes. -/
abbrev DiskState := List (String × List Nat)

def removeFile (d : DiskState) (p : String) : DiskState :=
  d.filter fun e => !(e.1 == p)

def setFile (d : DiskState) (p : String) (b : List Nat) : DiskState :=
  (p, b) :: removeFile d p

def getFile (d : DiskState) (p : String) : Option (List Nat) :=
  (d.find? fun e => e.1 == p).map Prod.snd

/-- The two observable outcomes of the https transfer in `downloadImage`
(lines 96-110): the response bytes are piped to the file and `finish` fires,
or the request emits `error` with some message. -/
inductive NetOutcome where
  | success : List Nat → NetOutcome
  | failure : String → NetOutcome

/-- `downloadImage` (lines 96-110): `createWriteStream` creates the file; on
success the piped bytes are in it and the promise resolves; on a request
error the handler runs `fs.unlink(filepath)` and rejects with the error. -/
def downloadImage (net : NetOutcome) (filepath : String) (d : DiskState) :
    Except String Unit × DiskState :=
  let d1 := setFile d filepath []
  match net with
  | NetOutcome.success bytes => (Except.ok (), setFile d1 filepath bytes)
  | NetOutcome.failure err => (Except.error err, removeFile d1 filepath)

/-- `path.join(basePictureFolder, `temp_${index}.jpg`)` (line 118). -/
def tempName (basePictureFolder : String) (index : Nat) : String :=
  basePictureFolder ++ "/temp_" ++ toString index ++ ".jpg"

/-- `downloadImageToBuffer` (lines 112-123): download to the temp path; on
success read the bytes back and `fs.unlinkSync` the temp file; on failure the
rejection propagates (the temp file was already unlinked by `downloadImage`). -/
def downloadImageToBuffer (net : NetOutcome) (basePictureFolder : String)
    (index : Nat) (d : DiskState) : Except String (List Nat) × DiskState :=
  let tempPath := tempName basePictureFolder index
  match downloadImage net tempPath d with
  | (Except.error e, d1) => (Except.error e, d1)
  | (Except.ok _, d1) =>
    let bytes := (getFile d1 tempPath).getD []
    (Except.ok bytes, removeFile d1 tempPath)

theorem getFile_removeFile (d : DiskState) (p : String) :
    getFile (removeFile d p) p = none := by
  induction d with
  | nil => rfl
  | cons e rest ih =>
    unfold removeFile at ih ⊢
    rw [List.filter_cons]
    cases he : (!(e.1 == p)) with
    | false => exact ih
    | true =>
      unfold getFile at ih ⊢
      rw [if_pos rfl, List.find?_cons_of_neg]
      · exact ih
      · simpa using he

/-- C8: whatever the transfer outcome, the temporary file `temp_<index>.jpg`
in the picture's folder is not on disk once `downloadImageToBuffer` finishes
(scoped cleanup on both the success and the failure path); the returned value
is the downloaded bytes on success and the propagated error on failure. -/
theorem downloadImageToBuffer_cleans_temp (net : NetOutcome)
    (basePictureFolder : String) (index : Nat) (d : DiskState) :
    getFile (downloadImageToBuffer net basePictureFolder index d).2
        (tempName basePictureFolder index) = none ∧
    (downloadImageToBuffer (NetOutcome.success [7, 7]) basePictureFolder index d).1
      = Except.ok [7, 7] ∧
    (downloadImageToBuffer (NetOutcome.failure "ECONNRESET") basePictureFolder index d).1
      = Except.error "ECONNRESET" := by
  refine ⟨?_, ?_, rfl⟩
  · cases net with
    | success bytes =>
      show getFile (removeFile (setFile (setFile d _ []) _ bytes) _) _ = none
      exact getFile_removeFile _ _
    | failure err =>
      show getFile (removeFile (setFile d _ []) _) _ = none
      exact getFile_removeFile _ _
  · show Except.ok ((getFile (setFile (setFile d _ []) _ [7, 7]) _).getD []) = _
    unfold getFile setFile
    rw [List.find?_cons_of_pos _ (by simp)]
    rfl

/-- `doodle-digger.ts` line 345: after the Change click the TS variant takes
`newIframes[2]` (the third iframe). -/
def iframeIndexAfterChangeTS : Nat := 2

namespace JSVariant

/-!
The untyped runtime variant (`src/unnamed/part_001`) of the same program.
Its functions are translated here separately from that file; they reference
the same JS/sharp semantic helpers (`trimChars`, `collapseWs`, `keepChar`,
regex scanners, `blendOver`) since both variants run on the same runtime and
libraries.
-/

/-- part_001 lines 11-19. -/
def cleanTextForPath (text : String) (maxLength : Nat) : String :=
  if trimChars text.data = [] then "unknown"
  else ⟨(collapseWs ((text.data.map Char.toLower).filter keepChar)).take maxLength⟩

/-- part_001 lines 22-25. -/
def extractTextWithFallback (text : Option String) (fallbackName : String)
    (maxLength : Nat) : String :=
  match text with
  | none => fallbackName
  | some t => if trimChars t.data = [] then fallbackName else cleanTextForPath t maxLength

/-- part_001 lines 211-213. -/
def upgradeSrc (src : String) : String :=
  if hasEqS src.data then ⟨replaceSizeAll src.data⟩ else src

/-- part_001 line 208. -/
def extractFilterInfo (style : Option String) : Option (List Char) :=
  match style with
  | none => none
  | some s => (filterGroup s.data).map trimChars

/-- part_001 lines 204-220: one layer of the preset download loop. -/
def processLayer (src : Option String) (style : Option String) : LayerAction :=
  match src with
  | none => LayerAction.skipped
  | some s =>
    if s = "" then LayerAction.skipped
    else
      match extractFilterInfo style with
      | some f =>
        if f.isEmpty then LayerAction.rawDownload (upgradeSrc s)
        else LayerAction.filterRender (upgradeSrc s) ⟨f⟩
      | none => LayerAction.rawDownload (upgradeSrc s)

/-- part_001 lines 200-221. -/
def downloadPresetActions (layers : List RenderedLayer) : List LayerAction :=
  forCount layers fun _ l =>
    match processLayer l.src l.style with
    | LayerAction.skipped => []
    | a => [a]

/-- part_001 lines 148-176. -/
def createCompositeFromBuffers (outputFolder : String) (presetNumber : Nat)
    (imageBuffers : List ImageBuffer) : Option (String × FileContent) :=
  let finalName := outputFolder ++ "_" ++ toString presetNumber ++ ".jpg"
  match imageBuffers with
  | [] => none
  | [b] => some (finalName, FileContent.verbatim b)
  | b :: rest =>
    some (finalName, FileContent.jpeg 100
      (sharpComposite b (rest.map fun buf => ⟨buf, 0, 0, "over"⟩)))

/-- part_001 lines 426-451. -/
def presetLoop (c k p : String) (rs : List PresetM) : List NavEvent :=
  forCount rs fun rj r => [NavEvent.visit c k p r.name (rj + 1), NavEvent.cancelBack]

/-- part_001 lines 374-457. -/
def pictureLoop (c k : String) (ps : List PictureM) : List NavEvent :=
  forCount ps fun _ p => presetLoop c k p.name p.presets ++ [NavEvent.backNth 2]

/-- part_001 lines 347-465. -/
def classLoop (c : String) (ks : List PClassM) : List NavEvent :=
  forCount ks fun _ k => pictureLoop c k.name k.pictures ++ [NavEvent.backNth 1]

/-- part_001 lines 322-470. -/
def runTraversal (menu : MenuModel) : List NavEvent :=
  forCount menu fun _ c => classLoop c.name c.classes

/-- part_001 line 312: after the Change click the JS variant takes
`newIframes[1]` (the second iframe). -/
def iframeIndexAfterChange : Nat := 1

end JSVariant

/-- C9: the typed and untyped variants implement structurally identical
traversal and pipeline logic — on the same menu input they produce the same
visitation/back-event sequence, the same sanitized names, the same layer
dispatch, and the same output file names and bytes — and differ exactly in
the iframe ordinal selected after the Change action (2 in the TS variant,
1 in the JS variant). -/
theorem variants_equivalent :
    (∀ menu : MenuModel, JSVariant.runTraversal menu = runTraversal menu) ∧
    (∀ t m, JSVariant.cleanTextForPath t m = cleanTextForPath t m) ∧
    (∀ t fb m, JSVariant.extractTextWithFallback t fb m = extractTextWithFallback t fb m) ∧
    (∀ src style, JSVariant.processLayer src style = processLayer src style) ∧
    (∀ layers, JSVariant.downloadPresetActions layers = downloadPresetActions layers) ∧
    (∀ f k bufs, JSVariant.createCompositeFromBuffers f k bufs
      = createCompositeFromBuffers f k bufs) ∧
    iframeIndexAfterChangeTS = 2 ∧
    JSVariant.iframeIndexAfterChange = 1 ∧
    iframeIndexAfterChangeTS ≠ JSVariant.iframeIndexAfterChange :=
  ⟨fun _ => rfl, fun _ _ => rfl, fun _ _ _ => rfl, fun _ _ => rfl, fun _ => rfl,
   fun _ _ _ => rfl, rfl, rfl, by decide⟩
